import Mathlib

/-!
Shallow embedding of `read_ram_dump.py`, a single-file utility that inspects
PS1 RAM dumps: decoding little-endian values, printing hex dumps, diffing two
dumps byte by byte, and reading a line-oriented watch file.

Modelling conventions: a byte buffer (`bytes`) is a `List Nat` whose elements
are byte values; Python integers are `Int`; Python strings are `List Char`;
a raised `ValueError` (or `IndexError`) is `Except.error` with a constructor
identifying the error message.  Printing functions are modelled as returning
the data they would print.
-/

namespace RamDump

/-- Error outcomes of the script.  The script raises `ValueError` with two
distinct messages in `read_value` (modelled as `OutOfRange` and
`UnsupportedSize`), `ValueError` from `int(...)` in `load_watches`
(`ParseError`), and would raise `IndexError` on invalid buffer indexing. -/
inductive RamError
  | OutOfRange
  | UnsupportedSize
  | ParseError
  | IndexError
deriving DecidableEq

instance {ε α : Type} [DecidableEq ε] [DecidableEq α] : DecidableEq (Except ε α) := fun x y =>
  match x, y with
  | .ok a, .ok b =>
    if h : a = b then isTrue (by rw [h]) else isFalse (fun hc => by injection hc; exact h (by assumption))
  | .error a, .error b =>
    if h : a = b then isTrue (by rw [h]) else isFalse (fun hc => by injection hc; exact h (by assumption))
  | .ok _, .error _ => isFalse (fun hc => by injection hc)
  | .error _, .ok _ => isFalse (fun hc => by injection hc)

/-- PS1 RAM base address: `RAM_BASE = 0x80000000`. -/
def RAM_BASE : Int := 0x80000000

/-- Embedding of `read_value(data, address, size)`: computes
`offset = address - RAM_BASE`, raises "out of range" when `offset < 0` or
`offset + size > len(data)`, then decodes 1, 2 or 4 bytes little-endian
(`data[offset]`, `struct.unpack_from("<H")`, `struct.unpack_from("<I")`,
written out as base-256 sums), else raises "unsupported size". -/
def read_value (data : List Nat) (address : Int) (size : Int) : Except RamError Nat :=
  let offset := address - RAM_BASE
  if offset < 0 ∨ offset + size > (data.length : Int) then
    .error .OutOfRange
  else if size = 1 then
    .ok (data.getD offset.toNat 0)
  else if size = 2 then
    .ok (data.getD offset.toNat 0 + 256 * data.getD (offset.toNat + 1) 0)
  else if size = 4 then
    .ok (data.getD offset.toNat 0 + 256 * data.getD (offset.toNat + 1) 0 +
         65536 * data.getD (offset.toNat + 2) 0 + 16777216 * data.getD (offset.toNat + 3) 0)
  else
    .error .UnsupportedSize

/-- Little-endian decoding of a byte list, used as the specification side of
claim C1: the first byte is least significant. -/
def leDecode (bs : List Nat) : Nat :=
  bs.foldr (fun b acc => b + 256 * acc) 0

theorem leDecode_nil : leDecode [] = 0 := rfl

theorem leDecode_cons (b : Nat) (bs : List Nat) :
    leDecode (b :: bs) = b + 256 * leDecode bs := rfl

theorem drop_cons_getD (l : List Nat) (o : Nat) (h : o < l.length) :
    l.drop o = l.getD o 0 :: l.drop (o + 1) := by
  rw [List.drop_eq_getElem_cons h, List.getD_eq_getElem l 0 h]

/-- C1: for a size in {1,2,4}, an address at or above `RAM_BASE`, and
`(address - RAM_BASE) + size` within the buffer length, `read_value`
returns the little-endian unsigned value of the `size` bytes at offset
`address - RAM_BASE`. -/
theorem read_value_little_endian (data : List Nat) (address size : Int)
    (hs : size = 1 ∨ size = 2 ∨ size = 4)
    (h1 : RAM_BASE ≤ address)
    (h2 : address - RAM_BASE + size ≤ (data.length : Int)) :
    read_value data address size =
      .ok (leDecode ((data.drop (address - RAM_BASE).toNat).take size.toNat)) := by
  set o := (address - RAM_BASE).toNat with ho
  have hcond : ¬(address - RAM_BASE < 0 ∨ address - RAM_BASE + size > (data.length : Int)) := by
    push_neg
    constructor
    · omega
    · exact h2
  rcases hs with h | h | h
  · subst h
    have hb : o < data.length := by omega
    rw [read_value]
    simp only [if_neg hcond, if_pos rfl]
    rw [drop_cons_getD data o hb]
    simp [leDecode_cons, leDecode_nil]
  · subst h
    have hb0 : o < data.length := by omega
    have hb1 : o + 1 < data.length := by omega
    have hlist : (data.drop o).take (2 : Int).toNat = [data.getD o 0, data.getD (o + 1) 0] := by
      rw [show ((2 : Int).toNat) = 2 from rfl,
          drop_cons_getD data o hb0, drop_cons_getD data (o + 1) hb1]
      simp [List.take_succ_cons]
    rw [read_value]
    simp only [if_neg hcond]
    rw [hlist]
    norm_num [leDecode_cons, leDecode_nil]
  · subst h
    have hb0 : o < data.length := by omega
    have hb1 : o + 1 < data.length := by omega
    have hb2 : o + 2 < data.length := by omega
    have hb3 : o + 3 < data.length := by omega
    have hlist : (data.drop o).take (4 : Int).toNat =
        [data.getD o 0, data.getD (o + 1) 0, data.getD (o + 2) 0, data.getD (o + 3) 0] := by
      rw [show ((4 : Int).toNat) = 4 from rfl,
          drop_cons_getD data o hb0, drop_cons_getD data (o + 1) hb1,
          drop_cons_getD data (o + 2) hb2, show o + 2 + 1 = o + 3 from by omega,
          drop_cons_getD data (o + 3) hb3]
      simp [List.take_succ_cons]
    rw [read_value]
    simp only [if_neg hcond]
    rw [hlist]
    norm_num [leDecode_cons, leDecode_nil]
    ring

/-- Witness for C1: reading size 4 at offset 0 of a buffer beginning with
bytes `[0x58, 0x8F, 0x06, 0x80]` returns `0x80068F58`. -/
theorem read_value_little_endian_witness :
    read_value [0x58, 0x8F, 0x06, 0x80] RAM_BASE 4 = .ok 0x80068F58 := by
  have h := read_value_little_endian [0x58, 0x8F, 0x06, 0x80] RAM_BASE 4
    (by norm_num) (by norm_num) (by norm_num [RAM_BASE])
  rw [h]
  rfl

/-- C2: whenever the address is below the base or the read would extend past
the buffer's actual length, `read_value` fails with the out-of-range error
(for every size, supported or not). -/
theorem read_value_out_of_range (data : List Nat) (address size : Int)
    (h : address < RAM_BASE ∨ address - RAM_BASE + size > (data.length : Int)) :
    read_value data address size = .error .OutOfRange := by
  rw [read_value]
  rw [if_pos]
  rcases h with h | h
  · left; omega
  · right; exact h

/-- Witness for C2: reading 4 bytes at the base of an empty buffer is out of
range. -/
theorem read_value_out_of_range_witness :
    read_value [] RAM_BASE 4 = .error .OutOfRange :=
  read_value_out_of_range [] RAM_BASE 4 (Or.inr (by norm_num))

/-- Counterexample for C3: at an address below the base with unsupported size
3, `read_value` fails with `OutOfRange`, not `UnsupportedSize` — the range
check runs before the size check. -/
theorem read_value_size_check_counterexample :
    read_value [0, 0, 0] (RAM_BASE - 1) 3 = .error .OutOfRange ∧
      read_value [0, 0, 0] (RAM_BASE - 1) 3 ≠ .error .UnsupportedSize := by
  refine ⟨rfl, fun h => ?_⟩
  rw [show read_value [0, 0, 0] (RAM_BASE - 1) 3 = .error .OutOfRange from rfl] at h
  simp at h

/-- C3 (amended): when size is not in {1,2,4} and the bounds check passes
(address at or above the base and `(address - RAM_BASE) + size` within the
buffer length), `read_value` fails with `UnsupportedSize`; when the bounds
check fails, `OutOfRange` takes precedence. -/
theorem read_value_unsupported_size (data : List Nat) (address size : Int)
    (hs1 : size ≠ 1) (hs2 : size ≠ 2) (hs4 : size ≠ 4)
    (h1 : RAM_BASE ≤ address)
    (h2 : address - RAM_BASE + size ≤ (data.length : Int)) :
    read_value data address size = .error .UnsupportedSize := by
  rw [read_value]
  rw [if_neg (by push_neg; omega), if_neg hs1, if_neg hs2, if_neg hs4]

/-- Witness for amended C3: in-bounds read of size 3 fails with
`UnsupportedSize`. -/
theorem read_value_unsupported_size_witness :
    read_value [0, 0, 0] RAM_BASE 3 = .error .UnsupportedSize :=
  read_value_unsupported_size [0, 0, 0] RAM_BASE 3
    (by norm_num) (by norm_num) (by norm_num) (by norm_num) (by norm_num)

/-- Embedding of the difference records collected by
`compare_dumps(data1, data2)`: for each index `i` below
`min(len(data1), len(data2))` where the byte values disagree, the record
`(RAM_BASE + i, data1[i], data2[i])` is appended.  The printed summary and
threshold truncation operate on this list and are not modelled. -/
def compare_dumps (data1 data2 : List Nat) : List (Int × Nat × Nat) :=
  (List.range (min data1.length data2.length)).filterMap fun i =>
    if data1.getD i 0 ≠ data2.getD i 0 then
      some (RAM_BASE + (i : Int), data1.getD i 0, data2.getD i 0)
    else
      none

/-- Delta printed for a difference record `(addr, v1, v2)`: the signed value
`v2 - v1` (`after - before`). -/
def recordDelta (r : Int × Nat × Nat) : Int :=
  (r.2.2 : Int) - (r.2.1 : Int)

theorem compare_dumps_swap (A B : List Nat) :
    compare_dumps B A = (compare_dumps A B).map fun r => (r.1, r.2.2, r.2.1) := by
  rw [compare_dumps, compare_dumps, List.map_filterMap, Nat.min_comm]
  have hf : (fun i =>
      (if A.getD i 0 ≠ B.getD i 0 then
          some (RAM_BASE + (i : Int), A.getD i 0, B.getD i 0)
        else none).map fun r => (r.1, r.2.2, r.2.1)) =
      (fun i =>
        if B.getD i 0 ≠ A.getD i 0 then
          some (RAM_BASE + (i : Int), B.getD i 0, A.getD i 0)
        else none) := by
    funext i
    by_cases h : A.getD i 0 = B.getD i 0
    · rw [if_neg (fun hne => hne h), if_neg (fun hne => hne h.symm)]
      rfl
    · rw [if_pos h, if_pos (Ne.symm h)]
      rfl
  rw [hf]

theorem mem_compare_dumps (A B : List Nat) (r : Int × Nat × Nat)
    (hr : r ∈ compare_dumps A B) :
    ∃ i : Nat, i < min A.length B.length ∧ A.getD i 0 ≠ B.getD i 0 ∧
      r = (RAM_BASE + (i : Int), A.getD i 0, B.getD i 0) := by
  rw [compare_dumps] at hr
  obtain ⟨i, hi, hfi⟩ := List.mem_filterMap.mp hr
  have hne : A.getD i 0 ≠ B.getD i 0 := by
    by_contra h
    rw [if_neg (not_not_intro h)] at hfi
    exact Option.noConfusion hfi
  rw [if_pos hne] at hfi
  exact ⟨i, List.mem_range.mp hi, hne, (Option.some.inj hfi).symm⟩

/-- C4: diffing `(A, B)` and `(B, A)` produces records covering the same
addresses (in the same order); each record of one run reappears in the other
with before/after swapped, hence a negated delta; and every delta lies in
`-255..255`. -/
theorem compare_dumps_antisymmetric (A B : List Nat)
    (hA : ∀ b ∈ A, b < 256) (hB : ∀ b ∈ B, b < 256) :
    ((compare_dumps A B).map fun r => r.1) = ((compare_dumps B A).map fun r => r.1) ∧
    (∀ r ∈ compare_dumps A B,
      (r.1, r.2.2, r.2.1) ∈ compare_dumps B A ∧
        recordDelta (r.1, r.2.2, r.2.1) = -recordDelta r) ∧
    (∀ r ∈ compare_dumps A B, -255 ≤ recordDelta r ∧ recordDelta r ≤ 255) := by
  refine ⟨?_, ?_, ?_⟩
  · rw [compare_dumps_swap A B, List.map_map]
    rfl
  · intro r hr
    constructor
    · rw [compare_dumps_swap A B]
      exact List.mem_map_of_mem _ hr
    · simp only [recordDelta]
      ring
  · intro r hr
    obtain ⟨i, hi, _, hr'⟩ := mem_compare_dumps A B r hr
    have hiA : i < A.length := by omega
    have hiB : i < B.length := by omega
    have hvA : A.getD i 0 < 256 := by
      rw [List.getD_eq_getElem A 0 hiA]
      exact hA _ (List.getElem_mem hiA)
    have hvB : B.getD i 0 < 256 := by
      rw [List.getD_eq_getElem B 0 hiB]
      exact hB _ (List.getElem_mem hiB)
    subst hr'
    simp only [recordDelta]
    omega

/-- Witness for C4: for buffers `[0, 5]` and `[0, 3]`, the single record's
delta is within `-255..255`. -/
theorem compare_dumps_antisymmetric_witness :
    -255 ≤ recordDelta (RAM_BASE + 1, 5, 3) ∧ recordDelta (RAM_BASE + 1, 5, 3) ≤ 255 :=
  (compare_dumps_antisymmetric [0, 5] [0, 3] (by decide) (by decide)).2.2
    (RAM_BASE + 1, 5, 3) (by decide)

/-- C5: every record of `compare_dumps A B` has an address in
`[RAM_BASE, RAM_BASE + min(len A, len B))`, and within that overlap a record
for offset `i` is produced exactly when the two buffers disagree at `i`. -/
theorem compare_dumps_overlap (A B : List Nat) :
    (∀ r ∈ compare_dumps A B,
      RAM_BASE ≤ r.1 ∧ r.1 < RAM_BASE + ((min A.length B.length : Nat) : Int)) ∧
    (∀ i : Nat, i < min A.length B.length →
      ((RAM_BASE + (i : Int), A.getD i 0, B.getD i 0) ∈ compare_dumps A B ↔
        A.getD i 0 ≠ B.getD i 0)) := by
  constructor
  · intro r hr
    obtain ⟨i, hi, _, hr'⟩ := mem_compare_dumps A B r hr
    subst hr'
    constructor
    · show RAM_BASE ≤ RAM_BASE + (i : Int)
      omega
    · show RAM_BASE + (i : Int) < RAM_BASE + ((min A.length B.length : Nat) : Int)
      omega
  · intro i hi
    constructor
    · intro hmem
      obtain ⟨j, _, hne, hj⟩ := mem_compare_dumps A B _ hmem
      have h1 : RAM_BASE + (i : Int) = RAM_BASE + (j : Int) := congrArg Prod.fst hj
      have hij : i = j := by omega
      rw [hij]
      exact hne
    · intro hne
      rw [compare_dumps]
      refine List.mem_filterMap.mpr ⟨i, List.mem_range.mpr hi, ?_⟩
      rw [if_pos hne]

/-- Witness for C5: in buffers `[1, 2]` and `[1, 5]`, offset 1 is within the
overlap and its record appears exactly because the bytes disagree. -/
theorem compare_dumps_overlap_witness :
    ((RAM_BASE + ((1 : Nat) : Int), List.getD [1, 2] 1 0, List.getD [1, 5] 1 0) ∈
        compare_dumps [1, 2] [1, 5]) ↔
      List.getD [1, 2] 1 0 ≠ List.getD [1, 5] 1 0 :=
  (compare_dumps_overlap [1, 2] [1, 5]).2 1 (by decide)

theorem except_bind_error {ε α β : Type} (e : ε) (f : α → Except ε β) :
    (Except.error e >>= f) = Except.error e := rfl

theorem except_bind_ok {ε α β : Type} (a : α) (f : α → Except ε β) :
    (Except.ok a >>= f) = f a := rfl

/-- Characters removed by Python's `str.strip()` (the ASCII whitespace
characters). -/
def isPyWhitespace (c : Char) : Bool :=
  c == ' ' || c == '\t' || c == '\n' || c == '\r' || c == '\x0b' || c == '\x0c'

/-- Embedding of Python `s.strip()`: drop whitespace from both ends. -/
def pyStrip (s : List Char) : List Char :=
  ((s.dropWhile isPyWhitespace).reverse.dropWhile isPyWhitespace).reverse

/-- Embedding of Python `s.split(sep)` for a one-character separator:
`"".split(sep) = [""]`, and each separator occurrence starts a new piece. -/
def pySplit (sep : Char) : List Char → List (List Char)
  | [] => [[]]
  | c :: rest =>
    if c = sep then [] :: pySplit sep rest
    else
      match pySplit sep rest with
      | [] => [[c]]
      | p :: ps => (c :: p) :: ps

/-- Embedding of Python `line.startswith("#")`. -/
def startsWithHash : List Char → Bool
  | '#' :: _ => true
  | _ => false

/-- Value of a character as a digit, as accepted by Python `int(s, base)`:
`0`-`9`, then letters from 10 upward; 99 marks a non-digit (invalid in every
base the script uses). -/
def digitVal (c : Char) : Nat :=
  if '0' ≤ c ∧ c ≤ '9' then c.toNat - '0'.toNat
  else if 'a' ≤ c ∧ c ≤ 'z' then c.toNat - 'a'.toNat + 10
  else if 'A' ≤ c ∧ c ≤ 'Z' then c.toNat - 'A'.toNat + 10
  else 99

/-- Optional sign accepted at the front of a Python integer literal; returns
the sign and the remaining characters. -/
def pySign : List Char → Int × List Char
  | '-' :: rest => (-1, rest)
  | '+' :: rest => (1, rest)
  | t => (1, t)

/-- Drops an optional `0x` / `0X` marker, accepted by `int(s, 16)`. -/
def dropHexMarker : List Char → List Char
  | '0' :: c :: rest => if c = 'x' ∨ c = 'X' then rest else '0' :: c :: rest
  | t => t

/-- Embedding of Python `int(s, base)` for the two uses in the script
(`base` 16 for addresses, 10 for sizes): strip whitespace, read an optional
sign, for base 16 an optional `0x` marker, then at least one digit valid in
the base.  Anything else raises `ValueError` (`ParseError` here; underscore
digit separators are not modelled). -/
def pyInt (s : List Char) (base : Nat) : Except RamError Int :=
  let t1 := (pySign (pyStrip s)).2
  let sign := (pySign (pyStrip s)).1
  let t2 := if base = 16 then dropHexMarker t1 else t1
  if t2 = [] then .error .ParseError
  else if t2.all (fun c => digitVal c < base) then
    .ok (sign * ((t2.foldl (fun acc c => acc * base + digitVal c) 0 : Nat) : Int))
  else .error .ParseError

/-- Parsing of one kept watch-file line (the body of the `len(parts) >= 3`
branch of `load_watches`): `name = parts[0].strip()`,
`address = int(parts[1].strip(), 16)`, `size = int(parts[2].strip())`. -/
def parseWatchLine (line : List Char) : Except RamError (List Char × Int × Int) := do
  let parts := pySplit ',' line
  let address ← pyInt (pyStrip (parts.getD 1 [])) 16
  let size ← pyInt (pyStrip (parts.getD 2 [])) 10
  return (pyStrip (parts.getD 0 []), address, size)

/-- Embedding of `load_watches`, one recursive step per file line: strip the
line, skip it when empty or starting with `#`, skip it when it has fewer
than 3 comma-separated fields, otherwise parse it and keep the triple; a
raised `ValueError` aborts the whole load. -/
def load_watches : List (List Char) → Except RamError (List (List Char × Int × Int))
  | [] => .ok []
  | rawLine :: rest =>
    let line := pyStrip rawLine
    if line = [] ∨ startsWithHash line then
      load_watches rest
    else if 3 ≤ (pySplit ',' line).length then do
      let w ← parseWatchLine line
      let ws ← load_watches rest
      return w :: ws
    else
      load_watches rest

/-- A whole watch file as one text: the lines are the pieces between
newlines. -/
def load_watches_text (content : List Char) : Except RamError (List (List Char × Int × Int)) :=
  load_watches (pySplit '\n' content)

/-- Specification-side predicate for claim C6: a stripped line is kept when
it is non-empty, does not start with `#`, and has at least 3 fields. -/
def keepLine (line : List Char) : Bool :=
  !(line.isEmpty || startsWithHash line) && decide (3 ≤ (pySplit ',' line).length)

/-- Specification-side loader for claim C6, following the spec's wording:
first discard skipped lines, then parse the kept lines in file order. -/
def loadWatchesSpec (lines : List (List Char)) : Except RamError (List (List Char × Int × Int)) :=
  ((lines.map pyStrip).filter keepLine).mapM parseWatchLine

/-- C6: `load_watches` skips blank and `#` lines and lines with fewer than 3
fields, and returns the kept entries in file order — it agrees with the
filter-then-parse formulation; on `"a,0x10,1\n\n# c\nb,0x20,2"` it returns
exactly `("a", 0x10, 1)` then `("b", 0x20, 2)`. -/
theorem load_watches_skip_and_order :
    (∀ lines, load_watches lines = loadWatchesSpec lines) ∧
      load_watches_text ("a,0x10,1\n\n# c\nb,0x20,2".toList) =
        .ok [("a".toList, 0x10, 1), ("b".toList, 0x20, 2)] := by
  constructor
  · intro lines
    induction lines with
    | nil => rfl
    | cons a rest ih =>
      rw [load_watches]
      rw [loadWatchesSpec, List.map_cons, List.filter_cons]
      by_cases h1 : pyStrip a = [] ∨ startsWithHash (pyStrip a)
      · rw [if_pos h1]
        have hk : keepLine (pyStrip a) = false := by
          rw [keepLine]
          rcases h1 with h | h
          · simp [h]
          · simp [h]
        rw [hk]
        simp only [Bool.false_eq_true, if_false]
        exact ih
      · rw [if_neg h1]
        by_cases h2 : 3 ≤ (pySplit ',' (pyStrip a)).length
        · rw [if_pos h2]
          have hk : keepLine (pyStrip a) = true := by
            rw [keepLine]
            push_neg at h1
            simp [List.isEmpty_iff, h1.1, h1.2, h2]
          rw [hk, if_pos rfl, List.mapM_cons, ih, loadWatchesSpec]
        · rw [if_neg h2]
          have hk : keepLine (pyStrip a) = false := by
            rw [keepLine]
            simp [h2]
          rw [hk]
          simp only [Bool.false_eq_true, if_false]
          exact ih
  · rfl

theorem pyInt_error_eq (s : List Char) (b : Nat) (e : RamError)
    (h : pyInt s b = .error e) : e = .ParseError := by
  simp only [pyInt] at h
  split_ifs at h
  all_goals exact (Except.error.inj h).symm

theorem parseWatchLine_error_eq (line : List Char) (e : RamError)
    (h : parseWatchLine line = .error e) : e = .ParseError := by
  rw [parseWatchLine] at h
  cases haddr : pyInt (pyStrip ((pySplit ',' line).getD 1 [])) 16 with
  | error e1 =>
    rw [haddr, except_bind_error] at h
    exact (Except.error.inj h).symm ▸ pyInt_error_eq _ _ _ haddr
  | ok a =>
    rw [haddr, except_bind_ok] at h
    cases hsize : pyInt (pyStrip ((pySplit ',' line).getD 2 [])) 10 with
    | error e2 =>
      rw [hsize, except_bind_error] at h
      exact (Except.error.inj h).symm ▸ pyInt_error_eq _ _ _ hsize
    | ok b =>
      rw [hsize, except_bind_ok] at h
      exact Except.noConfusion h

theorem parseWatchLine_error_of (line : List Char)
    (h : pyInt (pyStrip ((pySplit ',' line).getD 1 [])) 16 = .error .ParseError ∨
         pyInt (pyStrip ((pySplit ',' line).getD 2 [])) 10 = .error .ParseError) :
    parseWatchLine line = .error .ParseError := by
  rw [parseWatchLine]
  rcases h with h | h
  · rw [h, except_bind_error]
  · cases haddr : pyInt (pyStrip ((pySplit ',' line).getD 1 [])) 16 with
    | error e1 =>
      rw [except_bind_error]
      rw [pyInt_error_eq _ _ _ haddr]
    | ok a =>
      rw [except_bind_ok, h, except_bind_error]

/-- C7: if some line of the input is kept (non-blank, not a comment, at
least 3 fields) but its address field is not valid hexadecimal or its size
field is not a valid decimal integer, `load_watches` fails with `ParseError`
and returns no list at all. -/
theorem load_watches_parse_failure (l1 l2 : List (List Char)) (line : List Char)
    (h1 : pyStrip line ≠ [])
    (h2 : startsWithHash (pyStrip line) = false)
    (h3 : 3 ≤ (pySplit ',' (pyStrip line)).length)
    (h4 : pyInt (pyStrip ((pySplit ',' (pyStrip line)).getD 1 [])) 16 = .error .ParseError ∨
          pyInt (pyStrip ((pySplit ',' (pyStrip line)).getD 2 [])) 10 = .error .ParseError) :
    load_watches (l1 ++ line :: l2) = .error .ParseError := by
  induction l1 with
  | nil =>
    rw [List.nil_append, load_watches]
    rw [if_neg (by rw [h2]; simp [h1]), if_pos h3]
    rw [parseWatchLine_error_of _ h4, except_bind_error]
  | cons a t ih =>
    rw [List.cons_append, load_watches]
    by_cases ha1 : pyStrip a = [] ∨ startsWithHash (pyStrip a)
    · rw [if_pos ha1]
      exact ih
    · rw [if_neg ha1]
      by_cases ha2 : 3 ≤ (pySplit ',' (pyStrip a)).length
      · rw [if_pos ha2]
        cases hw : parseWatchLine (pyStrip a) with
        | error e =>
          rw [except_bind_error, parseWatchLine_error_eq _ _ hw]
        | ok w =>
          rw [except_bind_ok, ih, except_bind_error]
      · rw [if_neg ha2]
        exact ih

/-- Witness for C7: the single line `"bad,xyz,1"` makes the whole load fail
with `ParseError`. -/
theorem load_watches_parse_failure_witness :
    load_watches ["bad,xyz,1".toList] = .error .ParseError :=
  load_watches_parse_failure [] [] ("bad,xyz,1".toList)
    (by decide) (by decide) (by decide) (Or.inl (by decide))

/-- Embedding of Python sequence indexing `data[j]`: non-negative indices
count from the front, indices in `[-len, 0)` from the end, anything else
raises `IndexError`. -/
def pyIndex (data : List Nat) (j : Int) : Except RamError Nat :=
  if 0 ≤ j ∧ j < (data.length : Int) then .ok (data.getD j.toNat 0)
  else if -(data.length : Int) ≤ j ∧ j < 0 then
    .ok (data.getD ((data.length : Int) + j).toNat 0)
  else .error .IndexError

/-- The byte `data[j]` yields when `j` is in range. -/
def pyVal (data : List Nat) (j : Int) : Nat :=
  if 0 ≤ j then data.getD j.toNat 0 else data.getD ((data.length : Int) + j).toNat 0

/-- Embedding of Python `range(start, stop)` with step 1, over `Int`. -/
def pyRange1 (start stop : Int) : List Int :=
  (List.range (stop - start).toNat).map fun (k : Nat) => start + (k : Int)

/-- Embedding of Python `range(start, stop, 16)` over `Int`. -/
def pyRange16 (start stop : Int) : List Int :=
  (List.range (((stop - start).toNat + 15) / 16)).map fun (k : Nat) => start + 16 * (k : Int)

/-- ASCII column rendering of one byte: printable bytes in `[32, 127)` as
their character, everything else as a dot. -/
def asciiChar (b : Nat) : Char :=
  if 32 ≤ b ∧ b < 127 then Char.ofNat b else '.'

/-- Embedding of `print_hex_dump(data, address, length)`, returning the rows
it prints: `offset = address - RAM_BASE`, `stop = min(offset + length,
len(data))` (named `end` in the source), one row per
`i in range(offset, stop, 16)` carrying the row address `RAM_BASE + i`, the
bytes `data[j]` for `j in range(i, min(i + 16, stop))`, and their ASCII
rendering.  Column formatting is not modelled beyond the values shown. -/
def print_hex_dump (data : List Nat) (address : Int) (length : Int) :
    Except RamError (List (Int × List Nat × List Char)) :=
  let offset := address - RAM_BASE
  let stop := min (offset + length) (data.length : Int)
  (pyRange16 offset stop).mapM (fun i => do
    let bs ← (pyRange1 i (min (i + 16) stop)).mapM (pyIndex data)
    return (RAM_BASE + i, bs, bs.map asciiChar))

theorem mem_pyRange1 (start stop j : Int) (h : j ∈ pyRange1 start stop) :
    start ≤ j ∧ j < stop := by
  rw [pyRange1] at h
  obtain ⟨k, hk, hj⟩ := List.mem_map.mp h
  have hk' := List.mem_range.mp hk
  omega

theorem pyRange1_length (start stop : Int) :
    (pyRange1 start stop).length = (stop - start).toNat := by
  rw [pyRange1, List.length_map, List.length_range]

theorem pyRange1_cons (start stop : Int) (h : start < stop) :
    pyRange1 start stop = start :: pyRange1 (start + 1) stop := by
  rw [pyRange1, pyRange1]
  have h1 : (stop - start).toNat = (stop - (start + 1)).toNat + 1 := by omega
  rw [h1, List.range_succ_eq_map, List.map_cons, List.map_map]
  congr 1
  · push_cast
    omega
  · congr 1
    funext k
    simp only [Function.comp]
    push_cast
    omega

theorem mem_pyRange16 (start stop i : Int) (h : i ∈ pyRange16 start stop) :
    start ≤ i ∧ i < stop := by
  rw [pyRange16] at h
  obtain ⟨k, hk, hi⟩ := List.mem_map.mp h
  have hk' := List.mem_range.mp hk
  omega

theorem pyRange16_nil (start stop : Int) (h : stop ≤ start) :
    pyRange16 start stop = [] := by
  rw [pyRange16]
  have h1 : ((stop - start).toNat + 15) / 16 = 0 := by omega
  rw [h1, List.range_zero, List.map_nil]

theorem pyRange16_cons (start stop : Int) (h : start < stop) :
    pyRange16 start stop = start :: pyRange16 (start + 16) stop := by
  rw [pyRange16, pyRange16]
  have h1 : ((stop - start).toNat + 15) / 16 = ((stop - (start + 16)).toNat + 15) / 16 + 1 := by
    omega
  rw [h1, List.range_succ_eq_map, List.map_cons, List.map_map]
  congr 1
  · push_cast
    omega
  · congr 1
    funext k
    simp only [Function.comp]
    push_cast
    omega

theorem pyIndex_eq_ok (data : List Nat) (j : Int)
    (h1 : -(data.length : Int) ≤ j) (h2 : j < (data.length : Int)) :
    pyIndex data j = .ok (pyVal data j) := by
  rw [pyIndex, pyVal]
  by_cases h : 0 ≤ j
  · rw [if_pos ⟨h, h2⟩, if_pos h]
  · rw [if_neg (fun hc => h hc.1), if_pos ⟨h1, by omega⟩, if_neg h]

theorem mapM_ok_of_forall {ε α β : Type} (f : α → Except ε β) (g : α → β) (l : List α)
    (h : ∀ a ∈ l, f a = .ok (g a)) : l.mapM f = .ok (l.map g) := by
  induction l with
  | nil => rfl
  | cons a t ih =>
    rw [List.mapM_cons, h a (List.mem_cons_self a t), except_bind_ok,
        ih (fun x hx => h x (List.mem_cons_of_mem a hx)), except_bind_ok]
    rfl

theorem print_hex_dump_eq (data : List Nat) (address length : Int)
    (h : -(data.length : Int) ≤ address - RAM_BASE) :
    print_hex_dump data address length =
      .ok ((pyRange16 (address - RAM_BASE)
              (min (address - RAM_BASE + length) (data.length : Int))).map
        fun i =>
          (RAM_BASE + i,
           (pyRange1 i (min (i + 16)
               (min (address - RAM_BASE + length) (data.length : Int)))).map (pyVal data),
           ((pyRange1 i (min (i + 16)
               (min (address - RAM_BASE + length) (data.length : Int)))).map (pyVal data)).map
             asciiChar)) := by
  simp only [print_hex_dump]
  apply mapM_ok_of_forall
  intro i hi
  have hib := mem_pyRange16 _ _ i hi
  have hinner : ∀ j ∈ pyRange1 i (min (i + 16)
      (min (address - RAM_BASE + length) (data.length : Int))),
      pyIndex data j = .ok (pyVal data j) := by
    intro j hj
    have hjb := mem_pyRange1 _ _ j hj
    exact pyIndex_eq_ok data j (by omega) (by omega)
  rw [mapM_ok_of_forall _ _ _ hinner, except_bind_ok]
  rfl

theorem pyRange16_chunk_sum (stop : Int) (n : Nat) :
    ∀ start : Int, (stop - start).toNat = n →
      ((pyRange16 start stop).map fun i => (min (i + 16) stop - i).toNat).sum = n := by
  induction n using Nat.strong_induction_on with
  | _ n ih =>
    intro start hn
    by_cases h : stop ≤ start
    · rw [pyRange16_nil _ _ h]
      simp only [List.map_nil, List.sum_nil]
      omega
    · push_neg at h
      rw [pyRange16_cons _ _ h, List.map_cons, List.sum_cons]
      have hlt : (stop - (start + 16)).toNat < n := by omega
      rw [ih _ hlt (start + 16) rfl]
      omega

/-- C8: for a start address at or above the base and within the buffer and
any requested length, `print_hex_dump` succeeds, and the total number of
bytes it shows is the requested length clamped to the bytes available — in
particular length 64 at the buffer's last byte shows exactly one byte. -/
theorem print_hex_dump_clamps (data : List Nat) (address length : Int)
    (h1 : RAM_BASE ≤ address) (h2 : address - RAM_BASE < (data.length : Int)) :
    ∃ rows, print_hex_dump data address length = .ok rows ∧
      (rows.map fun r => r.2.1.length).sum =
        min length.toNat (data.length - (address - RAM_BASE).toNat) := by
  refine ⟨_, print_hex_dump_eq data address length (by omega), ?_⟩
  rw [List.map_map]
  simp only [Function.comp_def, List.length_map, pyRange1_length]
  rw [pyRange16_chunk_sum _ _ _ rfl]
  omega

/-- Witness for C8: a 3-byte buffer, hex dump of length 64 starting at the
last byte: no failure, exactly one byte shown. -/
theorem print_hex_dump_clamps_witness :
    ∃ rows, print_hex_dump [1, 2, 3] (RAM_BASE + 2) 64 = .ok rows ∧
      (rows.map fun r => r.2.1.length).sum = 1 := by
  obtain ⟨rows, hok, hsum⟩ :=
    print_hex_dump_clamps [1, 2, 3] (RAM_BASE + 2) 64 (by omega) (by norm_num)
  exact ⟨rows, hok, by rw [hsum]; decide⟩

/-- C10: for a non-empty buffer and a start address below the base by at
most the buffer length (negative offset), `print_hex_dump` with positive
length succeeds without clamping the start: the first row is labelled with
the given address (below the base) and its first byte is taken from the end
of the buffer by negative indexing. -/
theorem print_hex_dump_negative_offset (data : List Nat) (address length : Int)
    (h0 : 0 < data.length) (h1 : address < RAM_BASE)
    (h2 : RAM_BASE - (data.length : Int) ≤ address) (h3 : 0 < length) :
    ∃ firstRow rest, print_hex_dump data address length = .ok (firstRow :: rest) ∧
      firstRow.1 = address ∧ firstRow.1 < RAM_BASE ∧
      firstRow.2.1.head? =
        some (data.getD ((data.length : Int) + (address - RAM_BASE)).toNat 0) := by
  have h := print_hex_dump_eq data address length (by omega)
  have hos : address - RAM_BASE <
      min (address - RAM_BASE + length) (data.length : Int) := by omega
  rw [pyRange16_cons _ _ hos, List.map_cons] at h
  refine ⟨_, _, h, ?_, ?_, ?_⟩
  · show RAM_BASE + (address - RAM_BASE) = address
    omega
  · show RAM_BASE + (address - RAM_BASE) < RAM_BASE
    omega
  · show ((pyRange1 (address - RAM_BASE) _).map (pyVal data)).head? = _
    rw [pyRange1_cons _ _ (by omega), List.map_cons, List.head?_cons]
    rw [pyVal, if_neg (by omega)]

/-- Witness for C10: buffer `[7, 9]`, start one byte below the base, length
5: the dump succeeds, the first row is at `RAM_BASE - 1`, and its first byte
is the buffer's last byte. -/
theorem print_hex_dump_negative_offset_witness :
    ∃ firstRow rest, print_hex_dump [7, 9] (RAM_BASE - 1) 5 = .ok (firstRow :: rest) ∧
      firstRow.1 = RAM_BASE - 1 ∧ firstRow.1 < RAM_BASE ∧
      firstRow.2.1.head? =
        some (List.getD [7, 9] (((2 : Int) + (RAM_BASE - 1 - RAM_BASE)).toNat) 0) :=
  print_hex_dump_negative_offset [7, 9] (RAM_BASE - 1) 5 (by norm_num) (by omega)
    (show RAM_BASE - ((2 : Nat) : Int) ≤ RAM_BASE - 1 by omega) (by norm_num)

/-- The parsed command-line options of `main` (after `argparse`): one or
more file paths, plus the optional flags.  String-valued options are
`Option (List Char)`; `argparse` defaults are recorded as default field
values. -/
structure Args where
  files : List (List Char)
  address : Option (List Char) := none
  size : Int := 4
  hex : Bool := false
  hexLength : Int := 64
  diff : Bool := false
  watchFile : Option (List Char) := none
  game : Option (List Char) := none

/-- The five mutually exclusive terminal branches of `main`. -/
inductive Branch
  | diffMode
  | readAddress
  | gameTable
  | watchMode
  | summary
deriving DecidableEq

/-- Python truthiness of an optional string (`if args.address:` and the
like): `None` and the empty string are falsy. -/
def pyTruthy : Option (List Char) → Bool
  | none => false
  | some s => !s.isEmpty

/-- The branch `main` executes after loading the first dump, following the
source's test order: `args.diff and len(args.files) >= 2`, then
`args.address`, then `args.game`, then `args.watch_file`, else the summary
statistics. -/
def selectBranch (a : Args) : Branch :=
  if a.diff ∧ 2 ≤ a.files.length then .diffMode
  else if pyTruthy a.address then .readAddress
  else if pyTruthy a.game then .gameTable
  else if pyTruthy a.watchFile then .watchMode
  else .summary

/-- C9: when diff mode is requested with a single file, the comparator
branch is not taken and no error is raised for the missing second file: the
dispatch is the same as if `--diff` had not been passed, falling through to
the single-value, game-table, watch-file or summary branch. -/
theorem selectBranch_diff_single_file (a : Args)
    (hd : a.diff = true) (hf : a.files.length = 1) :
    selectBranch a ≠ Branch.diffMode ∧
      selectBranch a = selectBranch { a with diff := false } := by
  have hcond : ¬(a.diff ∧ 2 ≤ a.files.length) := by
    intro hc
    omega
  constructor
  · rw [selectBranch, if_neg hcond]
    by_cases h1 : pyTruthy a.address
    · rw [if_pos h1]
      exact Branch.noConfusion
    · rw [if_neg h1]
      by_cases h2 : pyTruthy a.game
      · rw [if_pos h2]
        exact Branch.noConfusion
      · rw [if_neg h2]
        by_cases h3 : pyTruthy a.watchFile
        · rw [if_pos h3]
          exact Branch.noConfusion
        · rw [if_neg h3]
          exact Branch.noConfusion
  · have hcond2 : ¬({ a with diff := false }.diff ∧
        2 ≤ ({ a with diff := false } : Args).files.length) :=
      fun hc => Bool.noConfusion hc.1
    rw [selectBranch, selectBranch, if_neg hcond, if_neg hcond2]

/-- Witness for C9: `--diff` with one file and a watch file dispatches to
the watch branch, exactly as without `--diff`. -/
theorem selectBranch_diff_single_file_witness :
    selectBranch { files := ["a".toList], diff := true,
                   watchFile := some ("w".toList) } ≠ Branch.diffMode ∧
      selectBranch { files := ["a".toList], diff := true,
                     watchFile := some ("w".toList) } =
        selectBranch { files := ["a".toList], diff := false,
                       watchFile := some ("w".toList) } :=
  selectBranch_diff_single_file
    { files := ["a".toList], diff := true, watchFile := some ("w".toList) } rfl rfl

end RamDump
